import Mathlib

/-!  Verification development for the air-quality calendar generator
     (`main.py`).  The program classifies an hourly time series of
     pollutant and weather measurements into labelled quality levels,
     merges consecutive same-label hours into intervals for two calendar
     streams ("active" and "warning"), suppresses configured night hours,
     and drops intervals shorter than a configured minimum duration.

     Modelling conventions: metric values are rationals (the program
     compares finite decimal measurements with `<=` only); timestamps are
     natural numbers counting whole hours in the single configured time
     zone (every timestamp the program manipulates is a whole hour, so
     `hour_of_day` is `t % 24`, `+ timedelta(hours=1)` is `t + 1`, and a
     duration in hours is the difference of the endpoints). -/

namespace AirCal

/-- Configuration constants of the filtering block (`BLOCK_START_HOUR`,
    `BLOCK_END_HOUR`, `MIN_DURATION_HOURS` in the source). -/
def BLOCK_START_HOUR : Nat := 0

def BLOCK_END_HOUR : Nat := 5

def MIN_DURATION_HOURS : Int := 2

/-- Auxiliary weather bounds of the `PERFECT_CONDITION` dictionary. -/
structure PerfectCondition where
  temp_min : ℚ
  temp_max : ℚ
  cloud_max : ℚ
  visibility_min : ℚ
deriving Repr, DecidableEq

/-- The `PERFECT_CONDITION` configuration of the source. -/
def PERFECT_CONDITION : PerfectCondition :=
  { temp_min := 10, temp_max := 28, cloud_max := 50, visibility_min := 10000 }

/-- One rule of a threshold table: the four pollutant upper bounds and the
    label (title and description), as in the tuples of `LEVELS_ACTIVE` and
    `LEVELS_WARNING`. -/
structure Rule where
  lim_p25 : ℚ
  lim_p10 : ℚ
  lim_no2 : ℚ
  lim_o3 : ℚ
  title : String
  desc : String
deriving Repr, DecidableEq

/-- The ordered active rule table `LEVELS_ACTIVE`. -/
def LEVELS_ACTIVE : List Rule :=
  [ { lim_p25 := 35, lim_p10 := 50, lim_no2 := 40, lim_o3 := 100,
      title := "🌲 纯净空气", desc := "空气极佳，强烈建议户外活动！(PM2.5<35)" },
    { lim_p25 := 75, lim_p10 := 100, lim_no2 := 80, lim_o3 := 160,
      title := "🧘 适宜出行", desc := "空气良好，放心出门。(PM2.5<75)" } ]

/-- The single-rule warning table `LEVELS_WARNING`. -/
def LEVELS_WARNING : List Rule :=
  [ { lim_p25 := 115, lim_p10 := 150, lim_no2 := 120, lim_o3 := 200,
      title := "😷 刚需窗口", desc := "轻度污染，刚需出门建议防护。(75 < PM2.5 < 115)" } ]

/-- The pollutant tuple `vals_air = (pm2_5, pm10, nitrogen_dioxide, ozone)`. -/
structure AirVals where
  pm2_5 : ℚ
  pm10 : ℚ
  nitrogen_dioxide : ℚ
  ozone : ℚ
deriving Repr, DecidableEq

/-- The weather tuple `vals_weather = (temperature_2m, cloud_cover, visibility)`. -/
structure WeatherVals where
  temperature_2m : ℚ
  cloud_cover : ℚ
  visibility : ℚ
deriving Repr, DecidableEq

/-- One input observation row: a whole-hour timestamp plus the seven
    numeric metric columns read by `generate_calendars`. -/
structure Row where
  time : Nat
  pm2_5 : ℚ
  pm10 : ℚ
  nitrogen_dioxide : ℚ
  ozone : ℚ
  temperature_2m : ℚ
  cloud_cover : ℚ
  visibility : ℚ
deriving Repr, DecidableEq

def airOf (row : Row) : AirVals :=
  { pm2_5 := row.pm2_5, pm10 := row.pm10,
    nitrogen_dioxide := row.nitrogen_dioxide, ozone := row.ozone }

def weatherOf (row : Row) : WeatherVals :=
  { temperature_2m := row.temperature_2m, cloud_cover := row.cloud_cover,
    visibility := row.visibility }

/-- Python `int(...)` applied to a numeric value truncates toward zero. -/
def pyTrunc (q : ℚ) : Int := Int.tdiv q.num q.den

/-- The air-quality test of one rule: every pollutant value is `<=` the
    rule's corresponding bound (lines 110-111 and 151-152 of the source). -/
def airOk (va : AirVals) (r : Rule) : Prop :=
  va.pm2_5 ≤ r.lim_p25 ∧ va.pm10 ≤ r.lim_p10 ∧
  va.nitrogen_dioxide ≤ r.lim_no2 ∧ va.ozone ≤ r.lim_o3

instance (va : AirVals) (r : Rule) : Decidable (airOk va r) := by
  unfold airOk; infer_instance

/-- The perfect-weather test of lines 119-121: temperature within the
    inclusive `[temp_min, temp_max]` range, cloud cover at most
    `cloud_max`, visibility at least `visibility_min`. -/
def perfectOk (vw : WeatherVals) : Prop :=
  PERFECT_CONDITION.temp_min ≤ vw.temperature_2m ∧
  vw.temperature_2m ≤ PERFECT_CONDITION.temp_max ∧
  vw.cloud_cover ≤ PERFECT_CONDITION.cloud_max ∧
  vw.visibility ≥ PERFECT_CONDITION.visibility_min

instance (vw : WeatherVals) : Decidable (perfectOk vw) := by
  unfold perfectOk; infer_instance

/-- Title of the upgraded "perfect outdoor" label (line 124). -/
def perfectTitle : String := "☀️ 完美户外"

/-- Upgraded description built on lines 126-128 from the weather values
    and the base rule's description. -/
def perfectDesc (vw : WeatherVals) (desc : String) : String :=
  "🌟 完美窗口！空气纯净，阳光明媚，温度舒适。\n🌡️ " ++
    toString (pyTrunc vw.temperature_2m) ++ "°C | ☁️ " ++
    toString (pyTrunc vw.cloud_cover) ++ "% | 👁️ " ++
    toString (pyTrunc (vw.visibility / 1000)) ++ "km\n" ++ desc

/-- The active-classification loop of lines 105-131: scan the rule list
    with its enumeration index; at the first rule whose air bounds hold,
    return its title and description, upgraded by the perfect-weather
    overlay when the index is 0; `none` when no rule matches. -/
def activeLoop (vw : WeatherVals) (va : AirVals) :
    List Rule → Nat → Option (String × String)
  | [], _ => none
  | r :: rs, idx =>
    if airOk va r then
      some (if idx = 0 then
              (if perfectOk vw then (perfectTitle, perfectDesc vw r.desc)
               else (r.title, r.desc))
            else (r.title, r.desc))
    else activeLoop vw va rs (idx + 1)

/-- Per-observation label of the active stream. -/
def activeMatch (va : AirVals) (vw : WeatherVals) : Option (String × String) :=
  activeLoop vw va LEVELS_ACTIVE 0

/-- The literal active-zone guard of line 147. -/
def is_active_zone (va : AirVals) : Prop :=
  va.pm2_5 ≤ 75 ∧ va.pm10 ≤ 100 ∧ va.nitrogen_dioxide ≤ 80 ∧ va.ozone ≤ 160

instance (va : AirVals) : Decidable (is_active_zone va) := by
  unfold is_active_zone; infer_instance

/-- The warning-classification loop of lines 150-154: first matching rule
    of the list, no index, no overlay. -/
def warnLoop (va : AirVals) : List Rule → Option (String × String)
  | [] => none
  | r :: rs => if airOk va r then some (r.title, r.desc) else warnLoop va rs

/-- Per-observation label of the warning stream (lines 145-154): `none`
    whenever the literal active-zone guard holds, otherwise the first
    matching warning rule. -/
def warnMatch (va : AirVals) : Option (String × String) :=
  if is_active_zone va then none else warnLoop va LEVELS_WARNING

/-- First-match classification with enumeration index: the generic
    threshold-rule-table scan underlying both labelling loops. -/
def classifyIdx (va : AirVals) : List Rule → Nat → Option (Nat × Rule)
  | [], _ => none
  | r :: rs, idx => if airOk va r then some (idx, r) else classifyIdx va rs (idx + 1)

/-- One emitted or open interval, as built by `create_event_dict`:
    `stop` models the dictionary key `end`. -/
structure EventDict where
  start : Nat
  stop : Nat
  title : String
  desc : String
deriving Repr, DecidableEq

/-- `create_event_dict` of lines 191-197: a one-hour interval carrying
    the label's title and its description extended with the creating
    hour's pollutant values rendered as truncated integers. -/
def create_event_dict (time : Nat) (level_info : String × String) (vals : AirVals) :
    EventDict :=
  { start := time
    stop := time + 1
    title := level_info.1
    desc := level_info.2 ++ "\n(PM2.5:" ++ toString (pyTrunc vals.pm2_5) ++
      " | PM10:" ++ toString (pyTrunc vals.pm10) ++
      " | NO2:" ++ toString (pyTrunc vals.nitrogen_dioxide) ++
      " | O3:" ++ toString (pyTrunc vals.ozone) ++ ")" }

/-- Whether an hour-of-day falls within the suppressed night block
    (line 99). -/
def suppressedHour (t : Nat) : Prop :=
  BLOCK_START_HOUR ≤ t % 24 ∧ t % 24 < BLOCK_END_HOUR

instance (t : Nat) : Decidable (suppressedHour t) := by
  unfold suppressedHour; infer_instance

/-- The per-stream merge block duplicated at lines 134-143 and 156-164:
    given the emitted-events list, the optional open interval, the current
    hour, the hour's optional label and its pollutant values, extend the
    open interval when the titles agree, otherwise flush it and open a new
    interval when the hour carries a label. -/
def mergeStep (events : List EventDict) (curr : Option EventDict)
    (t : Nat) (m : Option (String × String)) (va : AirVals) :
    List EventDict × Option EventDict :=
  match curr with
  | some c =>
    match m with
    | some mv =>
      if c.title = mv.1 then (events, some { c with stop := t + 1 })
      else (events ++ [c], some (create_event_dict t mv va))
    | none => (events ++ [c], none)
  | none =>
    match m with
    | some mv => (events, some (create_event_dict t mv va))
    | none => (events, none)

/-- The mutable state of the loop of `generate_calendars`: the two
    emitted-event lists and the two optional open intervals. -/
structure GenState where
  events_active : List EventDict
  events_warning : List EventDict
  curr_active : Option EventDict
  curr_warning : Option EventDict
deriving Repr

/-- One iteration of the loop of lines 91-164: a suppressed hour flushes
    both open intervals and is otherwise skipped; an unsuppressed hour is
    labelled by both loops and merged into both streams. -/
def stepRow (s : GenState) (row : Row) : GenState :=
  if BLOCK_START_HOUR ≤ row.time % 24 ∧ row.time % 24 < BLOCK_END_HOUR then
    { events_active := s.events_active ++ s.curr_active.toList
      events_warning := s.events_warning ++ s.curr_warning.toList
      curr_active := none
      curr_warning := none }
  else
    let vals_air := airOf row
    let vals_weather := weatherOf row
    let match_act := activeLoop vals_weather vals_air LEVELS_ACTIVE 0
    let pa := mergeStep s.events_active s.curr_active row.time match_act vals_air
    let match_warn := warnMatch vals_air
    let pw := mergeStep s.events_warning s.curr_warning row.time match_warn vals_air
    { events_active := pa.1
      events_warning := pw.1
      curr_active := pa.2
      curr_warning := pw.2 }

/-- Lines 85-167 of `generate_calendars`: fold the loop over the rows and
    append the final open interval of each stream, yielding the two
    emitted interval sequences before duration filtering. -/
def generate_events (rows : List Row) : List EventDict × List EventDict :=
  let s := rows.foldl stepRow
    { events_active := [], events_warning := [],
      curr_active := none, curr_warning := none }
  (s.events_active ++ s.curr_active.toList,
   s.events_warning ++ s.curr_warning.toList)

/-- Rendering of `strftime` pattern `%H:%M` of a whole-hour timestamp. -/
def fmtHM (t : Nat) : String :=
  (if t % 24 < 10 then "0" ++ toString (t % 24) else toString (t % 24)) ++ ":00"

/-- One calendar event as assembled at lines 181-188: `stop` models the
    assignment to `e.end`. -/
structure CalEvent where
  name : String
  begin : Nat
  stop : Nat
  description : String
deriving Repr, DecidableEq

/-- The event record built from a kept interval (lines 181-188). -/
def toCalEvent (e : EventDict) : CalEvent :=
  { name := "[" ++ fmtHM e.start ++ "-" ++ fmtHM e.stop ++ "] " ++ e.title
    begin := e.start
    stop := e.stop
    description := e.desc }

/-- Duration in hours of an interval, `(end_dt - start_dt).total_seconds() / 3600`
    of line 178, exact on whole-hour timestamps. -/
def durationHours (e : EventDict) : Int := (e.stop : Int) - (e.start : Int)

/-- `process_events_to_calendar` of lines 174-189: keep, in order, the
    events whose duration is at least `MIN_DURATION_HOURS`, rendered as
    calendar events. -/
def process_events_to_calendar : List EventDict → List CalEvent
  | [] => []
  | e :: rest =>
    if MIN_DURATION_HOURS ≤ durationHours e then
      toCalEvent e :: process_events_to_calendar rest
    else process_events_to_calendar rest

/-- The full pipeline of `generate_calendars`: the two event streams after
    the duration filter. -/
def generate_calendars (rows : List Row) : List CalEvent × List CalEvent :=
  (process_events_to_calendar (generate_events rows).1,
   process_events_to_calendar (generate_events rows).2)

/-! ### Specification-side view of the segmenter

An input row, from the point of view of one stream, is an annotated hour:
a timestamp, an optional label (already `none` for a suppressed hour, since
a suppressed hour and an unlabellable hour act identically on the stream
state), and the pollutant values used when the hour opens an interval. -/

/-- One hour of one stream's input: timestamp, optional label (suppressed
    hours carry `none`), pollutant values. -/
structure Ann where
  t : Nat
  m : Option (String × String)
  va : AirVals
deriving Repr, DecidableEq

/-- The active-stream annotation of a row: `none` when the hour-of-day is
    suppressed, else the active label. -/
def annA (row : Row) : Ann :=
  { t := row.time
    m := if suppressedHour row.time then none
         else activeLoop (weatherOf row) (airOf row) LEVELS_ACTIVE 0
    va := airOf row }

/-- The warning-stream annotation of a row. -/
def annW (row : Row) : Ann :=
  { t := row.time
    m := if suppressedHour row.time then none else warnMatch (airOf row)
    va := airOf row }

/-- One stream's transition: the merge step applied to that stream's half
    of the state. -/
def streamStep (p : List EventDict × Option EventDict) (a : Ann) :
    List EventDict × Option EventDict :=
  mergeStep p.1 p.2 a.t a.m a.va

/-- Direct recursive form of one stream of the segmenter: process the
    annotated hours, emitting flushed intervals in order, and emit the
    interval still open at the end. -/
def segment : Option EventDict → List Ann → List EventDict
  | curr, [] => curr.toList
  | curr, a :: rest =>
    let p := mergeStep [] curr a.t a.m a.va
    p.1 ++ segment p.2 rest

/-- Whether an annotated hour carries exactly the given label title. -/
def hasTitle (title : String) (a : Ann) : Bool :=
  a.m.map Prod.fst == some title

/-- End timestamp of an interval extended through a run of hours: the
    default when the run is empty, else the last hour's start plus one. -/
def extEnd (s : Nat) : List Ann → Nat
  | [] => s
  | b :: l => extEnd (b.t + 1) l

/-- Maximal-run view of one stream, written after the specification: skip
    unlabelled hours; at a labelled hour, take the maximal following run of
    hours carrying the identical label, emit one interval spanning from
    this hour to the last hour of the run plus one, and continue after the
    run. -/
def runsSpec : List Ann → List EventDict
  | [] => []
  | a :: rest =>
    match a.m with
    | none => runsSpec rest
    | some mv =>
      { create_event_dict a.t mv a.va with
          stop := extEnd (a.t + 1) (rest.takeWhile (hasTitle mv.1)) } ::
        runsSpec (rest.dropWhile (hasTitle mv.1))
termination_by l => l.length
decreasing_by
  all_goals simp only [List.length_cons]
  all_goals (try omega)
  all_goals refine Nat.lt_succ_of_le ?_
  all_goals exact (List.dropWhile_sublist _).length_le

/-! ### Derived guard (specification note) and concrete observations -/

/-- Modelled from the spec: the specification's design note asks that the
    "is in active zone" test be derived from the active rule table's own
    loosest (last) rule's bounds instead of being duplicated as literal
    constants; this is that derived guard. -/
def active_zone_derived (va : AirVals) : Prop :=
  ∃ r, LEVELS_ACTIVE.getLast? = some r ∧ airOk va r

/-- Observation with pristine air and imperfect weather (overcast). -/
def rowPristine (t : Nat) : Row :=
  { time := t, pm2_5 := 10, pm10 := 10, nitrogen_dioxide := 10, ozone := 10,
    temperature_2m := 20, cloud_cover := 80, visibility := 20000 }

/-- Observation with pristine air and perfect weather. -/
def rowPerfect (t : Nat) : Row :=
  { time := t, pm2_5 := 10, pm10 := 10, nitrogen_dioxide := 10, ozone := 10,
    temperature_2m := 20, cloud_cover := 20, visibility := 20000 }

/-- Observation too polluted for both calendars. -/
def rowPolluted (t : Nat) : Row :=
  { time := t, pm2_5 := 200, pm10 := 300, nitrogen_dioxide := 200, ozone := 300,
    temperature_2m := 20, cloud_cover := 20, visibility := 20000 }

/-- Observation matching only the looser "acceptable" active rule. -/
def rowAcceptable (t : Nat) : Row :=
  { time := t, pm2_5 := 60, pm10 := 60, nitrogen_dioxide := 60, ozone := 120,
    temperature_2m := 20, cloud_cover := 20, visibility := 20000 }

/-- Observation in the warning zone. -/
def rowWarning (t : Nat) : Row :=
  { time := t, pm2_5 := 100, pm10 := 120, nitrogen_dioxide := 100, ozone := 180,
    temperature_2m := 20, cloud_cover := 20, visibility := 20000 }

/-- Three unsuppressed hours: pristine, too polluted for any rule,
    pristine again. -/
def rows7 : List Row := [rowPristine 6, rowPolluted 7, rowPristine 8]

/-- The scenario of the specification: hours 06, 07, 08 pristine with the
    overlay satisfied at 07 only. -/
def rows8 : List Row := [rowPristine 6, rowPerfect 7, rowPristine 8]

/-- A single unsuppressed pristine hour. -/
def rows1 : List Row := [rowPristine 6]

/-- A pristine observation inside the suppressed night block followed by
    an unsuppressed one. -/
def rows4 : List Row := [rowPristine 2, rowPristine 6]

/-! ### Upstream cleaning stage of `get_combined_data`

The two HTTP responses are already-parsed tables; the model keeps only
what the cleaning loop of lines 77-80 manipulates: named columns over
rows of cells.  A cell is a parsed number, a non-numeric string, or a
missing value (NaN); numeric strings coming from the API are modelled as
already-parsed `Cell.num`, and `pd.to_numeric(..., errors := coerce)`
maps every cell it cannot read as a number to NaN. -/

inductive Cell where
  | num (q : ℚ)
  | str (s : String)
  | na
deriving Repr, DecidableEq

/-- A dataframe: column names plus rows of cells (positionally aligned
    with the column list). -/
structure Frame where
  columns : List String
  rows : List (List Cell)
deriving Repr, DecidableEq

/-- Cellwise `pd.to_numeric` coercion (errors mapped to NaN). -/
def to_numeric : Cell → Cell
  | Cell.num q => Cell.num q
  | Cell.str _ => Cell.na
  | Cell.na => Cell.na

def isNum : Cell → Bool
  | Cell.num _ => true
  | _ => false

/-- Column access plus assignment `df[col] = pd.to_numeric(df[col], ...)`:
    reading a missing column raises `KeyError`. -/
def applyNumeric (f : Frame) (c : String) : Except String Frame :=
  match f.columns.findIdx? (fun x => x == c) with
  | none => Except.error ("KeyError: " ++ c)
  | some i =>
    Except.ok { f with rows := f.rows.map (fun row => row.set i (to_numeric (row.getD i Cell.na))) }

/-- `df.dropna(subset=cols, inplace=True)`: drop the rows having a missing
    value in any of the subset columns; a missing column raises `KeyError`. -/
def dropnaSubset (f : Frame) (subset : List String) : Except String Frame := do
  let idxs ← subset.mapM (fun c =>
    match f.columns.findIdx? (fun x => x == c) with
    | none => Except.error ("KeyError: " ++ c)
    | some i => Except.ok i)
  Except.ok { f with rows := f.rows.filter (fun row => idxs.all (fun i => isNum (row.getD i Cell.na))) }

/-- The literal column list of line 77 of the source. -/
def clean_cols : List String :=
  ["pm25", "pm10", "nitrogen_dioxide", "ozone", "temperature_2m", "cloud_cover", "visibility"]

/-- The cleaning stage of lines 76-80: coerce each listed column to
    numeric, then drop the rows with a missing value in any listed column. -/
def cleanData (f : Frame) : Except String Frame := do
  let f2 ← clean_cols.foldlM applyNumeric f
  dropnaSubset f2 clean_cols

/-- Columns of the merged dataframe: `time` plus the four hourly air
    metrics requested at line 51 and the three hourly weather metrics
    requested at line 62, merged on `time` at line 74. -/
def merged_columns : List String :=
  ["time", "pm2_5", "pm10", "nitrogen_dioxide", "ozone",
   "temperature_2m", "cloud_cover", "visibility"]

/-- A well-formed one-row fetched dataset (all metrics present, numeric). -/
def sampleFrame : Frame :=
  { columns := merged_columns
    rows := [[Cell.num 0, Cell.num 10, Cell.num 10, Cell.num 10, Cell.num 10,
              Cell.num 20, Cell.num 20, Cell.num 20000]] }

/-! ### From the folded loop to the recursive segmenter -/

theorem mergeStep_split (es : List EventDict) (curr : Option EventDict)
    (t : Nat) (m : Option (String × String)) (va : AirVals) :
    mergeStep es curr t m va =
      (es ++ (mergeStep [] curr t m va).1, (mergeStep [] curr t m va).2) := by
  cases curr with
  | none => cases m <;> simp [mergeStep]
  | some c =>
    cases m with
    | none => simp [mergeStep]
    | some mv =>
      by_cases h : c.title = mv.1 <;> simp [mergeStep, h]

theorem foldl_streamStep (anns : List Ann) :
    ∀ (es : List EventDict) (curr : Option EventDict),
      (anns.foldl streamStep (es, curr)).1 ++ (anns.foldl streamStep (es, curr)).2.toList
        = es ++ segment curr anns := by
  induction anns with
  | nil => intro es curr; simp [segment]
  | cons a rest ih =>
    intro es curr
    have h1 : streamStep (es, curr) a
        = (es ++ (mergeStep [] curr a.t a.m a.va).1, (mergeStep [] curr a.t a.m a.va).2) :=
      mergeStep_split es curr a.t a.m a.va
    simp only [List.foldl_cons, h1, ih, segment, List.append_assoc]

theorem stepRow_eq (s : GenState) (row : Row) :
    stepRow s row =
      { events_active := (streamStep (s.events_active, s.curr_active) (annA row)).1
        events_warning := (streamStep (s.events_warning, s.curr_warning) (annW row)).1
        curr_active := (streamStep (s.events_active, s.curr_active) (annA row)).2
        curr_warning := (streamStep (s.events_warning, s.curr_warning) (annW row)).2 } := by
  by_cases h : suppressedHour row.time
  · have h' : BLOCK_START_HOUR ≤ row.time % 24 ∧ row.time % 24 < BLOCK_END_HOUR := h
    rw [stepRow, if_pos h']
    cases s.curr_active <;> cases s.curr_warning <;>
      simp [streamStep, mergeStep, annA, annW, h]
  · have h' : ¬(BLOCK_START_HOUR ≤ row.time % 24 ∧ row.time % 24 < BLOCK_END_HOUR) := h
    rw [stepRow, if_neg h']
    simp [streamStep, annA, annW, h]

theorem foldl_stepRow (rows : List Row) :
    ∀ s : GenState,
      rows.foldl stepRow s =
        { events_active := ((rows.map annA).foldl streamStep (s.events_active, s.curr_active)).1
          events_warning := ((rows.map annW).foldl streamStep (s.events_warning, s.curr_warning)).1
          curr_active := ((rows.map annA).foldl streamStep (s.events_active, s.curr_active)).2
          curr_warning := ((rows.map annW).foldl streamStep (s.events_warning, s.curr_warning)).2 } := by
  induction rows with
  | nil => intro s; simp
  | cons r rest ih =>
    intro s
    rw [List.foldl_cons, stepRow_eq, ih]
    simp only [List.map_cons, List.foldl_cons]

/-- The loop of `generate_calendars` computes, stream by stream, the
    recursive segmenter over the annotated hours. -/
theorem generate_events_eq (rows : List Row) :
    generate_events rows = (segment none (rows.map annA), segment none (rows.map annW)) := by
  have h := foldl_stepRow rows
    { events_active := [], events_warning := [], curr_active := none, curr_warning := none }
  have hA := foldl_streamStep (rows.map annA) [] none
  have hW := foldl_streamStep (rows.map annW) [] none
  simp only [List.nil_append] at hA hW
  rw [generate_events, h]
  exact Prod.ext hA hW

/-! ### The segmenter emits the maximal runs -/

theorem extEnd_cases (l : List Ann) :
    ∀ s : Nat, extEnd s l = s ∨ ∃ b ∈ l, extEnd s l = b.t + 1 := by
  induction l with
  | nil => intro s; left; rfl
  | cons b l ih =>
    intro s
    rcases ih (b.t + 1) with h | ⟨c, hc, h⟩
    · right; exact ⟨b, List.mem_cons_self b l, h⟩
    · right; exact ⟨c, List.mem_cons_of_mem b hc, h⟩

theorem segment_some (anns : List Ann) :
    ∀ c : EventDict,
      segment (some c) anns =
        { c with stop := extEnd c.stop (anns.takeWhile (hasTitle c.title)) } ::
          segment none (anns.dropWhile (hasTitle c.title)) := by
  induction anns with
  | nil => intro c; simp [segment, extEnd]
  | cons a rest ih =>
    intro c
    cases hm : a.m with
    | none =>
      have hp : hasTitle c.title a = false := by simp [hasTitle, hm]
      simp [segment, mergeStep, hm, hp, extEnd]
    | some mv =>
      by_cases ht : c.title = mv.1
      · have hp : hasTitle c.title a = true := by simp [hasTitle, hm, ht]
        have h2 := ih { c with stop := a.t + 1 }
        simp only [segment, mergeStep, hm, if_pos ht]
        simp only [List.takeWhile_cons, List.dropWhile_cons, hp, if_pos rfl]
        simpa [extEnd] using h2
      · have hp : hasTitle c.title a = false := by
          simp [hasTitle, hm]
          exact fun hx => absurd hx.symm ht
        simp [segment, mergeStep, hm, if_neg ht, hp, extEnd]

theorem segment_none_runsSpec (anns : List Ann) :
    segment none anns = runsSpec anns := by
  induction anns using runsSpec.induct with
  | case1 => simp [segment, runsSpec]
  | case2 a l hm ih =>
    rw [runsSpec]
    simp only [hm]
    rw [← ih]
    simp [segment, mergeStep, hm]
  | case3 a l mv hm ih =>
    rw [runsSpec]
    simp only [hm]
    have h1 : segment none (a :: l)
        = segment (some (create_event_dict a.t mv a.va)) l := by
      simp [segment, mergeStep, hm]
    rw [h1, segment_some]
    simp only [create_event_dict]
    rw [ih]

/-- Shape of the emitted runs when the hours are strictly chronological:
    every interval starts at a labelled hour carrying its title, stops one
    hour after some input hour, has strictly positive duration, and covers
    no unlabelled hour. -/
theorem runsSpec_shape (anns : List Ann) :
    anns.Pairwise (fun x y => x.t < y.t) →
    ∀ e ∈ runsSpec anns,
      (∃ x ∈ anns, x.m.map Prod.fst = some e.title ∧ e.start = x.t) ∧
      (∃ y ∈ anns, e.stop = y.t + 1) ∧
      e.start < e.stop ∧
      ∀ b ∈ anns, b.m = none → ¬(e.start ≤ b.t ∧ b.t < e.stop) := by
  induction anns using runsSpec.induct with
  | case1 =>
    intro _ e he
    simp [runsSpec] at he
  | case2 a l hm ih =>
    intro hp e he
    rw [runsSpec] at he
    simp only [hm] at he
    have hal := (List.pairwise_cons.mp hp).1
    have hpl := (List.pairwise_cons.mp hp).2
    obtain ⟨c1, c2, c3, c4⟩ := ih hpl e he
    refine ⟨?_, ?_, c3, ?_⟩
    · obtain ⟨x, hx, h1, h2⟩ := c1
      exact ⟨x, List.mem_cons_of_mem a hx, h1, h2⟩
    · obtain ⟨y, hy, h1⟩ := c2
      exact ⟨y, List.mem_cons_of_mem a hy, h1⟩
    · intro b hb hbm hin
      rcases List.mem_cons.mp hb with rfl | hb'
      · obtain ⟨x, hx, _, hs⟩ := c1
        have hax := hal x hx
        rw [hs] at hin
        omega
      · exact c4 b hb' hbm hin
  | case3 a l mv hm ih =>
    intro hp e he
    have hal := (List.pairwise_cons.mp hp).1
    have hpl := (List.pairwise_cons.mp hp).2
    have hsplit : l.takeWhile (hasTitle mv.1) ++ l.dropWhile (hasTitle mv.1) = l :=
      List.takeWhile_append_dropWhile (hasTitle mv.1) l
    have hptail : (l.dropWhile (hasTitle mv.1)).Pairwise (fun x y => x.t < y.t) :=
      List.Pairwise.sublist (List.dropWhile_sublist _) hpl
    have hruntail : ∀ c ∈ l.takeWhile (hasTitle mv.1),
        ∀ b ∈ l.dropWhile (hasTitle mv.1), c.t < b.t := by
      have h := hpl
      rw [← hsplit] at h
      exact (List.pairwise_append.mp h).2.2
    have tailmem : ∀ x ∈ l.dropWhile (hasTitle mv.1), x ∈ l :=
      fun x hx => (List.dropWhile_sublist _).subset hx
    have runmem : ∀ x ∈ l.takeWhile (hasTitle mv.1), x ∈ l :=
      fun x hx => (List.takeWhile_sublist _).subset hx
    have memsplit : ∀ b ∈ l,
        b ∈ l.takeWhile (hasTitle mv.1) ∨ b ∈ l.dropWhile (hasTitle mv.1) := by
      intro b hb
      rw [← hsplit] at hb
      exact List.mem_append.mp hb
    rw [runsSpec] at he
    simp only [hm] at he
    rcases List.mem_cons.mp he with rfl | he'
    · simp only [create_event_dict]
      refine ⟨⟨a, List.mem_cons_self a l, by simp [hm], rfl⟩, ?_, ?_, ?_⟩
      · rcases extEnd_cases (l.takeWhile (hasTitle mv.1)) (a.t + 1) with h | ⟨b, hb, h⟩
        · exact ⟨a, List.mem_cons_self a l, h⟩
        · exact ⟨b, List.mem_cons_of_mem a (runmem b hb), h⟩
      · rcases extEnd_cases (l.takeWhile (hasTitle mv.1)) (a.t + 1) with h | ⟨b, hb, h⟩
        · omega
        · have := hal b (runmem b hb)
          omega
      · intro b hb hbm hin
        rcases List.mem_cons.mp hb with rfl | hb'
        · rw [hm] at hbm
          exact Option.noConfusion hbm
        · rcases memsplit b hb' with hrun | htail
          · have := List.mem_takeWhile_imp hrun
            simp [hasTitle, hbm] at this
          · have hstop : extEnd (a.t + 1) (l.takeWhile (hasTitle mv.1)) ≤ b.t := by
              rcases extEnd_cases (l.takeWhile (hasTitle mv.1)) (a.t + 1) with h | ⟨c, hc, h⟩
              · have := hal b (tailmem b htail)
                omega
              · have := hruntail c hc b htail
                omega
            omega
    · obtain ⟨c1, c2, c3, c4⟩ := ih hptail e he'
      refine ⟨?_, ?_, c3, ?_⟩
      · obtain ⟨x, hx, h1, h2⟩ := c1
        exact ⟨x, List.mem_cons_of_mem a (tailmem x hx), h1, h2⟩
      · obtain ⟨y, hy, h1⟩ := c2
        exact ⟨y, List.mem_cons_of_mem a (tailmem y hy), h1⟩
      · intro b hb hbm hin
        rcases List.mem_cons.mp hb with rfl | hb'
        · rw [hm] at hbm
          exact Option.noConfusion hbm
        · rcases memsplit b hb' with hrun | htail
          · have := List.mem_takeWhile_imp hrun
            simp [hasTitle, hbm] at this
          · exact c4 b htail hbm hin

/-- Two adjacent emitted runs that share a title are separated by an
    unlabelled hour of the input (under strict chronological order). -/
theorem runsSpec_adjacent (anns : List Ann) :
    anns.Pairwise (fun x y => x.t < y.t) →
    ∀ i e1 e2, (runsSpec anns)[i]? = some e1 → (runsSpec anns)[i + 1]? = some e2 →
      e1.title = e2.title →
      ∃ b ∈ anns, b.m = none ∧ e1.stop ≤ b.t ∧ b.t < e2.start := by
  induction anns using runsSpec.induct with
  | case1 =>
    intro _ i e1 e2 h1
    simp [runsSpec] at h1
  | case2 a l hm ih =>
    intro hp i e1 e2 h1 h2 ht
    rw [runsSpec] at h1 h2
    simp only [hm] at h1 h2
    obtain ⟨b, hb, h⟩ := ih (List.pairwise_cons.mp hp).2 i e1 e2 h1 h2 ht
    exact ⟨b, List.mem_cons_of_mem a hb, h⟩
  | case3 a l mv hm ih =>
    intro hp i e1 e2 h1 h2 ht
    have hal := (List.pairwise_cons.mp hp).1
    have hpl := (List.pairwise_cons.mp hp).2
    have hptail : (l.dropWhile (hasTitle mv.1)).Pairwise (fun x y => x.t < y.t) :=
      List.Pairwise.sublist (List.dropWhile_sublist _) hpl
    have tailmem : ∀ x ∈ l.dropWhile (hasTitle mv.1), x ∈ l :=
      fun x hx => (List.dropWhile_sublist _).subset hx
    rw [runsSpec] at h1 h2
    simp only [hm] at h1 h2
    cases i with
    | succ i' =>
      rw [List.getElem?_cons_succ] at h1 h2
      obtain ⟨b, hb, h⟩ := ih hptail i' e1 e2 h1 h2 ht
      exact ⟨b, List.mem_cons_of_mem a (tailmem b hb), h⟩
    | zero =>
      rw [List.getElem?_cons_zero] at h1
      rw [List.getElem?_cons_succ] at h2
      cases htail : l.dropWhile (hasTitle mv.1) with
      | nil =>
        rw [htail] at h2
        simp [runsSpec] at h2
      | cons b0 tail' =>
        have hb0p : hasTitle mv.1 b0 = false := by
          have hh := List.head?_dropWhile_not (hasTitle mv.1) l
          rw [htail] at hh
          simpa using hh
        have hb0tail : b0 ∈ l.dropWhile (hasTitle mv.1) := by
          rw [htail]
          exact List.mem_cons_self b0 tail'
        cases hb0m : b0.m with
        | some mv' =>
          exfalso
          rw [htail, runsSpec] at h2
          simp only [hb0m] at h2
          rw [List.getElem?_cons_zero] at h2
          have he2t : e2.title = mv'.1 := by
            rw [← Option.some_inj.mp h2]
            simp [create_event_dict]
          have he1t : e1.title = mv.1 := by
            rw [← Option.some_inj.mp h1]
            simp [create_event_dict]
          rw [he1t, he2t] at ht
          simp [hasTitle, hb0m] at hb0p
          exact hb0p ht.symm
        | none =>
          refine ⟨b0, List.mem_cons_of_mem a (tailmem b0 hb0tail), hb0m, ?_, ?_⟩
          · have he1 : e1 = { create_event_dict a.t mv a.va with
                stop := extEnd (a.t + 1) (l.takeWhile (hasTitle mv.1)) } :=
              (Option.some_inj.mp h1).symm
            have hstop : extEnd (a.t + 1) (l.takeWhile (hasTitle mv.1)) ≤ b0.t := by
              have hruntail : ∀ c ∈ l.takeWhile (hasTitle mv.1),
                  ∀ b ∈ l.dropWhile (hasTitle mv.1), c.t < b.t := by
                have h := hpl
                rw [← List.takeWhile_append_dropWhile (hasTitle mv.1) l] at h
                exact (List.pairwise_append.mp h).2.2
              rcases extEnd_cases (l.takeWhile (hasTitle mv.1)) (a.t + 1) with h | ⟨c, hc, h⟩
              · have := hal b0 (tailmem b0 hb0tail)
                omega
              · have := hruntail c hc b0 hb0tail
                omega
            rw [he1]
            exact hstop
          · have he2mem : e2 ∈ runsSpec (l.dropWhile (hasTitle mv.1)) :=
              List.getElem?_mem h2
            obtain ⟨⟨x, hx, hxm, hxs⟩, _, _, _⟩ := runsSpec_shape _ hptail e2 he2mem
            have hxtail' : x ∈ tail' := by
              rw [htail] at hx
              rcases List.mem_cons.mp hx with rfl | hx'
              · rw [hb0m] at hxm
                simp at hxm
              · exact hx'
            have hb0lt : b0.t < x.t := by
              have h := hptail
              rw [htail] at h
              exact (List.pairwise_cons.mp h).1 x hxtail'
            rw [hxs]
            exact hb0lt

/-! ### Classification lemmas -/

theorem classifyIdx_spec (va : AirVals) :
    ∀ (rules : List Rule) (k i : Nat) (r : Rule),
      classifyIdx va rules k = some (i, r) →
      k ≤ i ∧ rules[i - k]? = some r ∧ airOk va r ∧
        ∀ j, j < i - k → ∀ r', rules[j]? = some r' → ¬ airOk va r' := by
  intro rules
  induction rules with
  | nil =>
    intro k i r h
    simp [classifyIdx] at h
  | cons r0 rs ih =>
    intro k i r h
    by_cases ha : airOk va r0
    · rw [classifyIdx, if_pos ha] at h
      obtain ⟨h1, h2⟩ := Prod.mk.injEq .. ▸ Option.some_inj.mp h
      subst h1
      subst h2
      refine ⟨Nat.le_refl k, ?_, ha, ?_⟩
      · simp
      · intro j hj
        omega
    · rw [classifyIdx, if_neg ha] at h
      obtain ⟨h1, h2, h3, h4⟩ := ih (k + 1) i r h
      have hik : i - k = (i - (k + 1)) + 1 := by omega
      refine ⟨by omega, ?_, h3, ?_⟩
      · rw [hik]
        simpa using h2
      · intro j hj r' hr'
        cases j with
        | zero =>
          simp at hr'
          subst hr'
          exact ha
        | succ j' =>
          rw [List.getElem?_cons_succ] at hr'
          exact h4 j' (by omega) r' hr'

theorem classifyIdx_none (va : AirVals) :
    ∀ (rules : List Rule) (k : Nat),
      classifyIdx va rules k = none ↔ ∀ r ∈ rules, ¬ airOk va r := by
  intro rules
  induction rules with
  | nil =>
    intro k
    simp [classifyIdx]
  | cons r0 rs ih =>
    intro k
    by_cases ha : airOk va r0
    · rw [classifyIdx, if_pos ha]
      constructor
      · intro h
        exact Option.noConfusion h
      · intro h
        exact absurd ha (h r0 (List.mem_cons_self r0 rs))
    · rw [classifyIdx, if_neg ha, ih (k + 1)]
      constructor
      · intro h r hr
        rcases List.mem_cons.mp hr with rfl | hr'
        · exact ha
        · exact h r hr'
      · intro h r hr
        exact h r (List.mem_cons_of_mem r0 hr)

/-- The active-labelling loop is the indexed first-match classification
    post-processed by the perfect-weather overlay at index 0. -/
theorem activeLoop_classifyIdx (vw : WeatherVals) (va : AirVals) :
    ∀ (rules : List Rule) (k : Nat),
      activeLoop vw va rules k =
        (classifyIdx va rules k).map (fun p =>
          if p.1 = 0 then
            (if perfectOk vw then (perfectTitle, perfectDesc vw p.2.desc)
             else (p.2.title, p.2.desc))
          else (p.2.title, p.2.desc)) := by
  intro rules
  induction rules with
  | nil => intro k; rfl
  | cons r rs ih =>
    intro k
    by_cases h : airOk va r
    · rw [activeLoop, classifyIdx, if_pos h, if_pos h]
      rfl
    · rw [activeLoop, classifyIdx, if_neg h, if_neg h]
      exact ih (k + 1)

/-- The warning-labelling loop is the first-match classification with the
    matched rule's label, for any starting index. -/
theorem warnLoop_classifyIdx (va : AirVals) :
    ∀ (rules : List Rule) (k : Nat),
      warnLoop va rules =
        (classifyIdx va rules k).map (fun p => (p.2.title, p.2.desc)) := by
  intro rules
  induction rules with
  | nil => intro k; rfl
  | cons r rs ih =>
    intro k
    by_cases h : airOk va r
    · rw [warnLoop, classifyIdx, if_pos h, if_pos h]
      rfl
    · rw [warnLoop, classifyIdx, if_neg h, if_neg h]
      exact ih (k + 1)

/-- The literal active-zone guard of line 147 coincides with the bound
    test of the looser active rule. -/
theorem is_active_zone_iff_airOk (va : AirVals) :
    is_active_zone va ↔ airOk va
      { lim_p25 := 75, lim_p10 := 100, lim_no2 := 80, lim_o3 := 160,
        title := "🧘 适宜出行", desc := "空气良好，放心出门。(PM2.5<75)" } :=
  Iff.rfl

/-- Outside the active zone, both active rules fail. -/
theorem not_airOk_of_not_zone (va : AirVals) (h : ¬ is_active_zone va) :
    ∀ r ∈ LEVELS_ACTIVE, ¬ airOk va r := by
  intro r hr
  simp only [LEVELS_ACTIVE, List.mem_cons, List.not_mem_nil, or_false] at hr
  rcases hr with rfl | rfl
  · intro hx
    obtain ⟨h1, h2, h3, h4⟩ := hx
    exact h ⟨le_trans h1 (by norm_num), le_trans h2 (by norm_num),
      le_trans h3 (by norm_num), le_trans h4 (by norm_num)⟩
  · exact fun hx => h hx

/-- Outside the active zone the active label is `none`. -/
theorem activeMatch_none_of_not_zone (va : AirVals) (vw : WeatherVals)
    (h : ¬ is_active_zone va) : activeMatch va vw = none := by
  have hz : classifyIdx va LEVELS_ACTIVE 0 = none :=
    (classifyIdx_none va LEVELS_ACTIVE 0).mpr (not_airOk_of_not_zone va h)
  rw [activeMatch, activeLoop_classifyIdx, hz]
  rfl

/-- The duration filter is an order-preserving filter: the loop of
    `process_events_to_calendar` equals filtering by the keep condition
    and rendering. -/
theorem process_filter (events : List EventDict) :
    process_events_to_calendar events =
      (events.filter (fun e => decide (MIN_DURATION_HOURS ≤ durationHours e))).map toCalEvent := by
  induction events with
  | nil => rfl
  | cons e rest ih =>
    by_cases h : MIN_DURATION_HOURS ≤ durationHours e
    · rw [process_events_to_calendar, if_pos h]
      simp [List.filter_cons, h, ih]
    · rw [process_events_to_calendar, if_neg h]
      simp [List.filter_cons, h, ih]

theorem levels_active_getLast :
    LEVELS_ACTIVE.getLast? =
      some { lim_p25 := 75, lim_p10 := 100, lim_no2 := 80, lim_o3 := 160,
             title := "🧘 适宜出行", desc := "空气良好，放心出门。(PM2.5<75)" } := rfl

/-! ### The claims -/

/-- Claim C2: for every observation and every ordered rule list, the
    first-match classification returns the label of the first rule whose
    bounds all hold (bounds inclusive), returns `none` exactly when no
    rule matches, and never takes a later matching rule; the source's
    warning loop realises exactly this classification. -/
theorem C2_first_match (rules : List Rule) (va : AirVals) :
    (∀ i r, classifyIdx va rules 0 = some (i, r) →
        rules[i]? = some r ∧ airOk va r ∧
          ∀ j, j < i → ∀ r', rules[j]? = some r' → ¬ airOk va r') ∧
    (classifyIdx va rules 0 = none ↔ ∀ r ∈ rules, ¬ airOk va r) ∧
    warnLoop va rules = (classifyIdx va rules 0).map (fun p => (p.2.title, p.2.desc)) := by
  refine ⟨?_, classifyIdx_none va rules 0, warnLoop_classifyIdx va rules 0⟩
  intro i r h
  obtain ⟨h1, h2, h3, h4⟩ := classifyIdx_spec va rules 0 i r h
  rw [Nat.sub_zero] at h2 h4
  exact ⟨h2, h3, h4⟩

/-- Claim C3: when the base classification matches rule `i` of the active
    table, the emitted label is the distinct perfect title exactly when
    `i = 0` and every auxiliary weather condition holds, and is the base
    rule's unchanged title otherwise; the perfect title differs from every
    base title. -/
theorem C3_overlay (va : AirVals) (vw : WeatherVals) (i : Nat) (r : Rule)
    (h : classifyIdx va LEVELS_ACTIVE 0 = some (i, r)) :
    (activeMatch va vw).map Prod.fst =
        some (if i = 0 ∧ perfectOk vw then perfectTitle else r.title) ∧
    perfectTitle ∉ LEVELS_ACTIVE.map Rule.title := by
  constructor
  · rw [activeMatch, activeLoop_classifyIdx, h]
    by_cases h0 : i = 0
    · subst h0
      by_cases hp : perfectOk vw
      · simp [hp]
      · simp [hp]
    · simp [h0]
  · decide

theorem C3_overlay_witness :
    classifyIdx (airOf (rowPerfect 7)) LEVELS_ACTIVE 0 =
        some (0, { lim_p25 := 35, lim_p10 := 50, lim_no2 := 40, lim_o3 := 100,
                   title := "🌲 纯净空气", desc := "空气极佳，强烈建议户外活动！(PM2.5<35)" }) ∧
      ((activeMatch (airOf (rowPerfect 7)) (weatherOf (rowPerfect 7))).map Prod.fst =
          some (if 0 = 0 ∧ perfectOk (weatherOf (rowPerfect 7)) then perfectTitle
                else "🌲 纯净空气") ∧
        perfectTitle ∉ LEVELS_ACTIVE.map Rule.title) :=
  ⟨by decide, C3_overlay (airOf (rowPerfect 7)) (weatherOf (rowPerfect 7)) 0
    { lim_p25 := 35, lim_p10 := 50, lim_no2 := 40, lim_o3 := 100,
      title := "🌲 纯净空气", desc := "空气极佳，强烈建议户外活动！(PM2.5<35)" } (by decide)⟩

/-- Claim C5: at most one of the two per-hour labels is non-`none`: inside
    the active-zone bounds the warning label is `none`, outside them the
    active label is `none`. -/
theorem C5_mutual_exclusion (va : AirVals) (vw : WeatherVals) :
    ¬(activeMatch va vw ≠ none ∧ warnMatch va ≠ none) ∧
    (is_active_zone va → warnMatch va = none) ∧
    (¬ is_active_zone va → activeMatch va vw = none) := by
  have hz : is_active_zone va → warnMatch va = none := fun h => by
    rw [warnMatch, if_pos h]
  have hnz := activeMatch_none_of_not_zone va vw
  refine ⟨?_, hz, hnz⟩
  rintro ⟨h1, h2⟩
  by_cases h : is_active_zone va
  · exact h2 (hz h)
  · exact h1 (hnz h)

/-- Claim C9: the literal warning-zone guard of line 147 coincides with
    the guard derived from the loosest (last) rule of `LEVELS_ACTIVE`. -/
theorem C9_guard_refinement (va : AirVals) :
    is_active_zone va ↔ active_zone_derived va := by
  constructor
  · intro h
    exact ⟨_, levels_active_getLast, h⟩
  · rintro ⟨r, hr, hok⟩
    rw [levels_active_getLast] at hr
    have h2 := Option.some_inj.mp hr
    rw [← h2] at hok
    exact hok

/-- Claim C6: the duration filter keeps an interval exactly when
    `end - start` is at least `MIN_DURATION_HOURS`, every kept interval
    satisfies the bound, every dropped one violates it, and the output is
    an order-preserving sublist rendering without re-merging. -/
theorem C6_duration_filter (events : List EventDict) :
    process_events_to_calendar events =
      (events.filter (fun e => decide (MIN_DURATION_HOURS ≤ durationHours e))).map toCalEvent ∧
    (∀ e ∈ events.filter (fun e => decide (MIN_DURATION_HOURS ≤ durationHours e)),
        MIN_DURATION_HOURS ≤ durationHours e) ∧
    (∀ e ∈ events,
        e ∉ events.filter (fun e => decide (MIN_DURATION_HOURS ≤ durationHours e)) →
        durationHours e < MIN_DURATION_HOURS) ∧
    (events.filter (fun e => decide (MIN_DURATION_HOURS ≤ durationHours e))).Sublist events := by
  refine ⟨process_filter events, ?_, ?_, List.filter_sublist events⟩
  · intro e he
    have h := (List.mem_filter.mp he).2
    exact of_decide_eq_true h
  · intro e he hn
    by_contra hlt
    push_neg at hlt
    exact hn (List.mem_filter.mpr ⟨he, decide_eq_true hlt⟩)

/-- Claim C1: the two emitted interval sequences are exactly the maximal
    runs of identical labels over the unsuppressed hours (suppressed hours
    acting as hard breaks, the final open interval emitted), and under
    chronological input every emitted interval carries the label of some
    labelled hour and lasts at least one hour. -/
theorem C1_segmenter_runs (rows : List Row)
    (hchron : rows.Pairwise (fun r s => r.time < s.time)) :
    generate_events rows = (runsSpec (rows.map annA), runsSpec (rows.map annW)) ∧
    (∀ e ∈ (generate_events rows).1,
        e.start + 1 ≤ e.stop ∧ ∃ x ∈ rows, (annA x).m.map Prod.fst = some e.title) ∧
    (∀ e ∈ (generate_events rows).2,
        e.start + 1 ≤ e.stop ∧ ∃ x ∈ rows, (annW x).m.map Prod.fst = some e.title) := by
  have heq : generate_events rows = (runsSpec (rows.map annA), runsSpec (rows.map annW)) := by
    rw [generate_events_eq, segment_none_runsSpec, segment_none_runsSpec]
  have hpA : (rows.map annA).Pairwise (fun x y => x.t < y.t) := by
    rw [List.pairwise_map]
    exact hchron
  have hpW : (rows.map annW).Pairwise (fun x y => x.t < y.t) := by
    rw [List.pairwise_map]
    exact hchron
  refine ⟨heq, ?_, ?_⟩
  · intro e he
    have he' : e ∈ runsSpec (rows.map annA) := by
      rw [heq] at he
      exact he
    obtain ⟨⟨x, hx, hxm, hxs⟩, _, hlt, _⟩ := runsSpec_shape (rows.map annA) hpA e he'
    obtain ⟨x0, hx0, rfl⟩ := List.mem_map.mp hx
    exact ⟨by omega, x0, hx0, hxm⟩
  · intro e he
    have he' : e ∈ runsSpec (rows.map annW) := by
      rw [heq] at he
      exact he
    obtain ⟨⟨x, hx, hxm, hxs⟩, _, hlt, _⟩ := runsSpec_shape (rows.map annW) hpW e he'
    obtain ⟨x0, hx0, rfl⟩ := List.mem_map.mp hx
    exact ⟨by omega, x0, hx0, hxm⟩

theorem C1_segmenter_runs_witness :
    (rows1.Pairwise (fun r s => r.time < s.time)) ∧
    (generate_events rows1 = (runsSpec (rows1.map annA), runsSpec (rows1.map annW)) ∧
      (∀ e ∈ (generate_events rows1).1,
          e.start + 1 ≤ e.stop ∧ ∃ x ∈ rows1, (annA x).m.map Prod.fst = some e.title) ∧
      (∀ e ∈ (generate_events rows1).2,
          e.start + 1 ≤ e.stop ∧ ∃ x ∈ rows1, (annW x).m.map Prod.fst = some e.title)) :=
  ⟨by decide, C1_segmenter_runs rows1 (by decide)⟩

/-- Claim C4: under chronological input, a suppressed hour of the input is
    never inside an emitted interval of either stream, and processing a
    suppressed hour always flushes both open intervals. -/
theorem C4_suppression (rows : List Row)
    (hchron : rows.Pairwise (fun r s => r.time < s.time)) :
    (∀ r ∈ rows, suppressedHour r.time →
        (∀ e ∈ (generate_events rows).1, ¬(e.start ≤ r.time ∧ r.time < e.stop)) ∧
        (∀ e ∈ (generate_events rows).2, ¬(e.start ≤ r.time ∧ r.time < e.stop))) ∧
    (∀ (s : GenState) (row : Row), suppressedHour row.time →
        stepRow s row =
          { events_active := s.events_active ++ s.curr_active.toList
            events_warning := s.events_warning ++ s.curr_warning.toList
            curr_active := none
            curr_warning := none }) := by
  have hpA : (rows.map annA).Pairwise (fun x y => x.t < y.t) := by
    rw [List.pairwise_map]
    exact hchron
  have hpW : (rows.map annW).Pairwise (fun x y => x.t < y.t) := by
    rw [List.pairwise_map]
    exact hchron
  constructor
  · intro r hr hsup
    constructor
    · intro e he
      have he' : e ∈ runsSpec (rows.map annA) := by
        rw [generate_events_eq, segment_none_runsSpec] at he
        exact he
      have hb : annA r ∈ rows.map annA := List.mem_map_of_mem annA hr
      have hbm : (annA r).m = none := by
        simp [annA, hsup]
      obtain ⟨_, _, _, h4⟩ := runsSpec_shape (rows.map annA) hpA e he'
      exact h4 (annA r) hb hbm
    · intro e he
      have he' : e ∈ runsSpec (rows.map annW) := by
        rw [generate_events_eq, segment_none_runsSpec, segment_none_runsSpec] at he
        exact he
      have hb : annW r ∈ rows.map annW := List.mem_map_of_mem annW hr
      have hbm : (annW r).m = none := by
        simp [annW, hsup]
      obtain ⟨_, _, _, h4⟩ := runsSpec_shape (rows.map annW) hpW e he'
      exact h4 (annW r) hb hbm
  · intro s row hsup
    have h' : BLOCK_START_HOUR ≤ row.time % 24 ∧ row.time % 24 < BLOCK_END_HOUR := hsup
    rw [stepRow, if_pos h']

theorem C4_suppression_witness :
    (rows4.Pairwise (fun r s => r.time < s.time)) ∧
    ((∀ r ∈ rows4, suppressedHour r.time →
        (∀ e ∈ (generate_events rows4).1, ¬(e.start ≤ r.time ∧ r.time < e.stop)) ∧
        (∀ e ∈ (generate_events rows4).2, ¬(e.start ≤ r.time ∧ r.time < e.stop))) ∧
      (∀ (s : GenState) (row : Row), suppressedHour row.time →
          stepRow s row =
            { events_active := s.events_active ++ s.curr_active.toList
              events_warning := s.events_warning ++ s.curr_warning.toList
              curr_active := none
              curr_warning := none })) :=
  ⟨by decide, C4_suppression rows4 (by decide)⟩

/-- Claim C7 (counterexample): with pristine air at hours 06 and 08 and an
    hour too polluted for any rule between them, the active stream emits
    two adjacent intervals carrying the same label, refuting that adjacent
    emitted intervals always differ. -/
theorem C7_counterexample :
    ((generate_events rows7).1.map (fun e => (e.title, e.start, e.stop))) =
      [("🌲 纯净空气", 6, 7), ("🌲 纯净空气", 8, 9)] := by
  decide

/-- Claim C7 (amended): within each stream, two adjacent emitted intervals
    sharing a label are always separated by an input hour whose label for
    that stream is `none` (suppressed or unmatched); adjacent intervals
    with no such hour between them differ. -/
theorem C7_amended (rows : List Row)
    (hchron : rows.Pairwise (fun r s => r.time < s.time)) :
    (∀ i e1 e2, (generate_events rows).1[i]? = some e1 →
        (generate_events rows).1[i + 1]? = some e2 → e1.title = e2.title →
        ∃ b ∈ rows, (annA b).m = none ∧ e1.stop ≤ b.time ∧ b.time < e2.start) ∧
    (∀ i e1 e2, (generate_events rows).2[i]? = some e1 →
        (generate_events rows).2[i + 1]? = some e2 → e1.title = e2.title →
        ∃ b ∈ rows, (annW b).m = none ∧ e1.stop ≤ b.time ∧ b.time < e2.start) := by
  have hpA : (rows.map annA).Pairwise (fun x y => x.t < y.t) := by
    rw [List.pairwise_map]
    exact hchron
  have hpW : (rows.map annW).Pairwise (fun x y => x.t < y.t) := by
    rw [List.pairwise_map]
    exact hchron
  constructor
  · intro i e1 e2 h1 h2 ht
    have h1' : (runsSpec (rows.map annA))[i]? = some e1 := by
      rw [generate_events_eq, segment_none_runsSpec] at h1
      exact h1
    have h2' : (runsSpec (rows.map annA))[i + 1]? = some e2 := by
      rw [generate_events_eq, segment_none_runsSpec] at h2
      exact h2
    obtain ⟨b, hb, hbm, hs⟩ := runsSpec_adjacent (rows.map annA) hpA i e1 e2 h1' h2' ht
    obtain ⟨b0, hb0, rfl⟩ := List.mem_map.mp hb
    exact ⟨b0, hb0, hbm, hs⟩
  · intro i e1 e2 h1 h2 ht
    have h1' : (runsSpec (rows.map annW))[i]? = some e1 := by
      rw [generate_events_eq, segment_none_runsSpec, segment_none_runsSpec] at h1
      exact h1
    have h2' : (runsSpec (rows.map annW))[i + 1]? = some e2 := by
      rw [generate_events_eq, segment_none_runsSpec, segment_none_runsSpec] at h2
      exact h2
    obtain ⟨b, hb, hbm, hs⟩ := runsSpec_adjacent (rows.map annW) hpW i e1 e2 h1' h2' ht
    obtain ⟨b0, hb0, rfl⟩ := List.mem_map.mp hb
    exact ⟨b0, hb0, hbm, hs⟩

theorem C7_amended_witness :
    (rows7.Pairwise (fun r s => r.time < s.time)) ∧
    ((∀ i e1 e2, (generate_events rows7).1[i]? = some e1 →
        (generate_events rows7).1[i + 1]? = some e2 → e1.title = e2.title →
        ∃ b ∈ rows7, (annA b).m = none ∧ e1.stop ≤ b.time ∧ b.time < e2.start) ∧
      (∀ i e1 e2, (generate_events rows7).2[i]? = some e1 →
          (generate_events rows7).2[i + 1]? = some e2 → e1.title = e2.title →
          ∃ b ∈ rows7, (annW b).m = none ∧ e1.stop ≤ b.time ∧ b.time < e2.start)) :=
  ⟨by decide, C7_amended rows7 (by decide)⟩

/-- Claim C8: for pristine hours 06, 07, 08 with the overlay satisfied at
    07 only, the active segmenter emits exactly three one-hour intervals
    (pristine, perfect, pristine — no pair merges) and the duration filter
    with its configured minimum of 2 hours drops all three. -/
theorem C8_scenario :
    MIN_DURATION_HOURS = 2 ∧
    ((generate_events rows8).1.map (fun e => (e.title, e.start, e.stop))) =
      [("🌲 纯净空气", 6, 7), (perfectTitle, 7, 8), ("🌲 纯净空气", 8, 9)] ∧
    (∀ e ∈ (generate_events rows8).1, durationHours e = 1) ∧
    process_events_to_calendar (generate_events rows8).1 = [] := by
  refine ⟨rfl, ?_, ?_, ?_⟩ <;> decide

/-- Claim C10: the cleaning stage of `get_combined_data` fails with a
    `KeyError` on every fetched dataset, because its column list names
    `pm25` while the fetched column (requested at line 51 and read at
    line 95) is `pm2_5`; no row is ever coerced or dropped. -/
theorem C10_cleaning_keyerror (f : Frame) (h : f.columns = merged_columns) :
    cleanData f = Except.error "KeyError: pm25" := by
  have hfind : f.columns.findIdx? (fun x => x == "pm25") = none := by
    rw [h]
    rfl
  have happ : applyNumeric f "pm25" = Except.error "KeyError: pm25" := by
    rw [applyNumeric, hfind]
    rfl
  simp only [cleanData, clean_cols, List.foldlM, happ]
  rfl

theorem C10_cleaning_keyerror_witness :
    sampleFrame.columns = merged_columns ∧
    cleanData sampleFrame = Except.error "KeyError: pm25" :=
  ⟨rfl, C10_cleaning_keyerror sampleFrame rfl⟩

end AirCal
